import Mathlib

/-!
Shallow embedding of `src/rust/src/cron.rs` (the nanobot cron scheduler core).

Conventions of the embedding:
* Rust `i64` millisecond timestamps are modelled as `Int`.
* The third-party `cron` crate is abstracted by a parameter
  `cronNext : String → Int → Option Int`: given an expression and a
  reference instant, it yields the first occurrence strictly after that
  instant, or `none` when the expression is unparsable or has no upcoming
  occurrence.  Crucially, the source's `"cron"` arm calls
  `cron::Schedule::upcoming(Utc)`, which consults the real wall clock and
  never looks at the `now_ms` argument; the embedding therefore threads an
  explicit `wall : Int` argument, the instant the library reads from the
  clock during the call.
* File and Python I/O (store reads/writes, the Python executor callback)
  are made explicit: the store file content is a `StoreFile` value, the
  executor is a function `CronJob → Except String Unit`, and whether the
  source would have called `save_store` is returned as a `Bool` flag.
* The in-memory registry `Vec<CronJob>` is a `List CronJob`; each service
  operation becomes a pure function from the registry (plus the times at
  which the source reads `now_ms()`) to the new registry and its return
  value.
-/

/-- Schedule definition for a cron job (`CronSchedule` in the source). -/
structure CronSchedule where
  kind : String
  at_ms : Option Int
  every_ms : Option Int
  expr : Option String
  tz : Option String
  deriving DecidableEq

/-- What to do when the job runs (`CronPayload` in the source; the source
field `to` is rendered `recipient` because `to` is reserved in Lean). -/
structure CronPayload where
  kind : String
  message : String
  deliver : Bool
  channel : Option String
  recipient : Option String
  deriving DecidableEq

/-- Runtime state of a job (`CronJobState` in the source). -/
structure CronJobState where
  next_run_at_ms : Option Int
  last_run_at_ms : Option Int
  last_status : Option String
  last_error : Option String
  deriving DecidableEq

/-- A scheduled job (`CronJob` in the source). -/
structure CronJob where
  id : String
  name : String
  enabled : Bool
  schedule : CronSchedule
  payload : CronPayload
  state : CronJobState
  created_at_ms : Int
  updated_at_ms : Int
  delete_after_run : Bool
  deriving DecidableEq

/-- Compute next run time in ms (`compute_next_run` in the source).
`cronNext` abstracts the `cron` crate (parse + first occurrence strictly
after the reference instant, `none` on parse failure or no occurrence);
`wall` is the instant `upcoming(Utc)` reads from the real clock — the
source's `"cron"` arm does not use `now_ms` at all. -/
def compute_next_run (cronNext : String → Int → Option Int) (wall : Int)
    (schedule : CronSchedule) (now_ms : Int) : Option Int :=
  if schedule.kind = "at" then
    match schedule.at_ms with
    | some t => if now_ms < t then some t else none
    | none => none
  else if schedule.kind = "every" then
    match schedule.every_ms with
    | some every => if 0 < every then some (now_ms + every) else none
    | none => none
  else if schedule.kind = "cron" then
    match schedule.expr with
    | some e => cronNext e wall
    | none => none
  else
    none

/-- Update the first element satisfying `p` (the effect of the source's
`iter_mut().find(...)` followed by in-place mutation). -/
def updateFirst (p : CronJob → Bool) (f : CronJob → CronJob) :
    List CronJob → List CronJob
  | [] => []
  | j :: rest => if p j then f j :: rest else j :: updateFirst p f rest

/-- Start-time reconciliation (`CronService::start`, the block that
recomputes next runs after loading): every enabled job gets
`next_run_at_ms := compute_next_run(schedule, now)`; disabled jobs are
left untouched. -/
def reconcile (cronNext : String → Int → Option Int) (now : Int)
    (jobs : List CronJob) : List CronJob :=
  jobs.map fun job =>
    if job.enabled then
      { job with state :=
          { job.state with next_run_at_ms :=
              compute_next_run cronNext now job.schedule now } }
    else job

/-- Add a new job (`CronService::add_job`): the fresh id (a uuid prefix in
the source) is passed in; the job is created enabled with
`next_run_at_ms = compute_next_run(schedule, now)` and appended. -/
def add_job (cronNext : String → Int → Option Int) (now : Int)
    (fresh_id name : String) (schedule : CronSchedule) (message : String)
    (deliver : Bool) (channel recipient : Option String)
    (delete_after_run : Bool) (jobs : List CronJob) :
    CronJob × List CronJob :=
  let job : CronJob :=
    { id := fresh_id
      name := name
      enabled := true
      schedule := schedule
      payload :=
        { kind := "agent_turn"
          message := message
          deliver := deliver
          channel := channel
          recipient := recipient }
      state :=
        { next_run_at_ms := compute_next_run cronNext now schedule now
          last_run_at_ms := none
          last_status := none
          last_error := none }
      created_at_ms := now
      updated_at_ms := now
      delete_after_run := delete_after_run }
  (job, jobs ++ [job])

/-- Result of `CronService::remove_job`: whether a job was removed, the new
registry, and whether the store was persisted (the source calls
`save_store` only when `removed`). -/
structure RemoveResult where
  removed : Bool
  jobs : List CronJob
  persisted : Bool
  deriving DecidableEq

/-- Remove a job by ID (`CronService::remove_job`): `retain(|j| j.id !=
job_id)`, report whether the length shrank, persist only then. -/
def remove_job (job_id : String) (jobs : List CronJob) : RemoveResult :=
  let newJobs := jobs.filter fun j => j.id != job_id
  let removed := decide (newJobs.length < jobs.length)
  { removed := removed, jobs := newJobs, persisted := removed }

/-- The field updates `CronService::enable_job` applies to the matching
job. -/
def enableUpdate (cronNext : String → Int → Option Int) (now : Int)
    (enabled : Bool) (j : CronJob) : CronJob :=
  { j with
    enabled := enabled
    updated_at_ms := now
    state :=
      { j.state with next_run_at_ms :=
          if enabled then compute_next_run cronNext now j.schedule now
          else none } }

/-- Enable or disable a job (`CronService::enable_job`): the first job with
the given id is updated and returned; an unknown id returns `none` and
leaves the registry unchanged. -/
def enable_job (cronNext : String → Int → Option Int) (now : Int)
    (job_id : String) (enabled : Bool) (jobs : List CronJob) :
    Option CronJob × List CronJob :=
  match jobs.find? (fun j => j.id == job_id) with
  | none => (none, jobs)
  | some j =>
      (some (enableUpdate cronNext now enabled j),
       updateFirst (fun j => j.id == job_id)
         (enableUpdate cronNext now enabled) jobs)

/-- The re-fetch at the top of `execute_job`: the first job with the given
id, if any; when this is `none` the source returns before invoking the
executor. -/
def execute_job_fetch (job_id : String) (jobs : List CronJob) :
    Option CronJob :=
  jobs.find? fun j => j.id == job_id

/-- The post-completion state update `execute_job` applies to the job it
re-found: record `last_run_at_ms = start_ms` (the time captured before the
executor call), `updated_at_ms = end_ms` (a fresh clock read), and
`last_status`/`last_error` from the outcome; then the rescheduling policy
for the non-deleting cases — a one-shot becomes disabled with
`next_run_at_ms = none`, any other kind gets `next_run_at_ms =
compute_next_run(schedule, end_ms)`. -/
def applyOutcome (cronNext : String → Int → Option Int)
    (start_ms end_ms : Int) (result : Except String Unit) (job : CronJob) :
    CronJob :=
  let recorded : CronJob :=
    match result with
    | .ok _ =>
        { job with
          updated_at_ms := end_ms
          state :=
            { job.state with
              last_run_at_ms := some start_ms
              last_status := some ("ok")
              last_error := none } }
    | .error e =>
        { job with
          updated_at_ms := end_ms
          state :=
            { job.state with
              last_run_at_ms := some start_ms
              last_status := some ("error")
              last_error := some e } }
  if recorded.schedule.kind = "at" then
    { recorded with
      enabled := false
      state := { recorded.state with next_run_at_ms := none } }
  else
    { recorded with
      state :=
        { recorded.state with
          next_run_at_ms :=
            compute_next_run cronNext end_ms recorded.schedule end_ms } }

/-- The registry mutation performed after the executor call in
`execute_job`: if the job vanished, nothing happens; if it is a one-shot
flagged `delete_after_run`, every job with that id is removed (`retain`);
otherwise the first matching job is updated via `applyOutcome`. -/
def execute_job_update (cronNext : String → Int → Option Int)
    (start_ms end_ms : Int) (result : Except String Unit)
    (job_id : String) (jobs : List CronJob) : List CronJob :=
  match jobs.find? (fun j => j.id == job_id) with
  | none => jobs
  | some job =>
      if job.schedule.kind = "at" ∧ job.delete_after_run then
        jobs.filter fun j => j.id != job_id
      else
        updateFirst (fun j => j.id == job_id)
          (applyOutcome cronNext start_ms end_ms result) jobs

/-- Execute a single job (`execute_job`): re-fetch; on a vanished id return
with no executor call (the `Bool` records whether the executor ran);
otherwise invoke the executor on the fetched job and apply the
post-completion update. `start_ms` is the clock read before the executor
call, `end_ms` the read after it. -/
def execute_job (cronNext : String → Int → Option Int)
    (start_ms end_ms : Int) (executor : CronJob → Except String Unit)
    (job_id : String) (jobs : List CronJob) : List CronJob × Bool :=
  match execute_job_fetch job_id jobs with
  | none => (jobs, false)
  | some job =>
      (execute_job_update cronNext start_ms end_ms (executor job) job_id
        jobs, true)

/-- Manually run a job (`CronService::run_job`): dispatch iff some job has
the id and is enabled or `force` is set; returns whether dispatch
occurred. -/
def run_job (cronNext : String → Int → Option Int)
    (start_ms end_ms : Int) (executor : CronJob → Except String Unit)
    (job_id : String) (force : Bool) (jobs : List CronJob) :
    Bool × List CronJob :=
  if jobs.any (fun j => j.id == job_id && (force || j.enabled)) then
    (true, (execute_job cronNext start_ms end_ms executor job_id jobs).1)
  else
    (false, jobs)

/-- Sort key used by `list_jobs`: `next_run_at_ms.unwrap_or(i64::MAX)`. -/
def sortKey (j : CronJob) : Int :=
  j.state.next_run_at_ms.getD (2 ^ 63 - 1)

/-- Stable insertion of a job into a list already sorted by `sortKey`
(ascending); together with `sortJobs` this realises the stable
`sort_by_key` used by `list_jobs`. -/
def insertSorted (j : CronJob) : List CronJob → List CronJob
  | [] => [j]
  | k :: rest =>
      if sortKey j ≤ sortKey k then j :: k :: rest
      else k :: insertSorted j rest

/-- Stable sort ascending by `sortKey` (Rust's `sort_by_key` is stable). -/
def sortJobs : List CronJob → List CronJob
  | [] => []
  | j :: rest => insertSorted j (sortJobs rest)

/-- List all jobs (`CronService::list_jobs`): optionally filter to enabled
jobs, then sort ascending by `next_run_at_ms` with absent values last. -/
def list_jobs (include_disabled : Bool) (jobs : List CronJob) :
    List CronJob :=
  sortJobs (if include_disabled then jobs else jobs.filter fun j => j.enabled)

/-- Modelled from the spec: the on-disk store as seen by `load_store`.  The
file may be missing (`path.exists()` false), unreadable
(`read_to_string` error), not parse as a store document at all, or be a
document `{version, jobs[]}` whose entries are given as per-entry
deserialisation results — `serde_json` parses the whole document at once,
so one malformed entry (`none`) fails the whole parse.  The field-identity
repacking of `CronJobJson` into `CronJob` (source lines 606–637) is
elided: entries are `Option CronJob` directly. -/
inductive StoreFile where
  | missing
  | readFailure
  | notAStore
  | doc (version : Int) (entries : List (Option CronJob))

/-- All-or-nothing collection of per-entry parse results: any `none` entry
makes the whole document fail to parse (serde's behaviour). -/
def collectEntries : List (Option CronJob) → Option (List CronJob)
  | [] => some []
  | none :: _ => none
  | some j :: rest => (collectEntries rest).map fun js => j :: js

/-- Load jobs from disk (`load_store`): missing file, read failure, or any
parse failure yields the empty registry; otherwise the full job list. -/
def load_store : StoreFile → List CronJob
  | .missing => []
  | .readFailure => []
  | .notAStore => []
  | .doc _ entries =>
      match collectEntries entries with
      | none => []
      | some js => js

/-- The spec's registry invariant, relativised to the instant `t` at which
a job's schedule was last (re)computed: `next_run_at_ms` is absent iff the
job is disabled or the next-run calculator returned `none` for its
schedule at `t`. -/
def jobInvAt (cronNext : String → Int → Option Int) (t : Int)
    (j : CronJob) : Prop :=
  j.state.next_run_at_ms = none ↔
    (j.enabled = false ∨ compute_next_run cronNext t j.schedule t = none)

/-- Registry-wide invariant: every job satisfies `jobInvAt` at some
instant (the instant of its last rescheduling). -/
def RegInv (cronNext : String → Int → Option Int)
    (jobs : List CronJob) : Prop :=
  ∀ j ∈ jobs, ∃ t, jobInvAt cronNext t j

/-- A concrete stand-in for the cron library used in witnesses and
counterexamples: every millisecond matches, so the first occurrence
strictly after `t` is `t + 1`. -/
def cronStep : String → Int → Option Int := fun _ t => some (t + 1)

/-- C4: for a schedule of kind `every`, `compute_next_run` returns
`now + interval` exactly when the interval is present and strictly
positive, and `none` when it is absent or not strictly positive; the
result depends only on the `now` argument (plus the interval), not on any
previous state. -/
theorem every_next_run (cronNext : String → Int → Option Int)
    (wall now n : Int) (a : Option Int) (e tzv : Option String) :
    compute_next_run cronNext wall ⟨"every", a, some n, e, tzv⟩ now
        = (if 0 < n then some (now + n) else none)
    ∧ compute_next_run cronNext wall ⟨"every", a, none, e, tzv⟩ now
        = none := by
  constructor <;> simp [compute_next_run]

/-- C5: for a schedule of kind `at` with timestamp `t`, `compute_next_run`
returns `some t` iff `t > now` and `none` otherwise; once elapsed it stays
`none` for every later `now`, regardless of the wall clock. -/
theorem at_next_run (cronNext cronNext' : String → Int → Option Int)
    (wall wall' now now' t : Int) (ev : Option Int) (e tzv : Option String) :
    (compute_next_run cronNext wall ⟨"at", some t, ev, e, tzv⟩ now
        = some t ↔ now < t)
    ∧ (t ≤ now →
        compute_next_run cronNext wall ⟨"at", some t, ev, e, tzv⟩ now
          = none)
    ∧ (t ≤ now → now ≤ now' →
        compute_next_run cronNext' wall' ⟨"at", some t, ev, e, tzv⟩ now'
          = none) := by
  refine ⟨?_, ?_, ?_⟩ <;> simp [compute_next_run] <;> omega

/-- Witness for `at_next_run` at a concrete elapsed one-shot. -/
theorem at_next_run_witness :
    (compute_next_run cronStep 0 ⟨"at", some 5, none, none, none⟩ 7
        = some 5 ↔ (7 : Int) < 5)
    ∧ ((5 : Int) ≤ 7 →
        compute_next_run cronStep 0 ⟨"at", some 5, none, none, none⟩ 7
          = none)
    ∧ ((5 : Int) ≤ 7 → (7 : Int) ≤ 9 →
        compute_next_run cronStep 1 ⟨"at", some 5, none, none, none⟩ 9
          = none) :=
  at_next_run cronStep cronStep 0 1 7 9 5 none none none

/-- C10: `compute_next_run` is total over every representable
`CronSchedule`: an unrecognised kind yields `none`, and each recognised
kind with its required field absent yields `none`. -/
theorem compute_next_run_total (cronNext : String → Int → Option Int)
    (wall now : Int) (k : String) (a n : Option Int)
    (ex tzv : Option String) :
    (k ≠ "at" → k ≠ "every" → k ≠ "cron" →
        compute_next_run cronNext wall ⟨k, a, n, ex, tzv⟩ now = none)
    ∧ compute_next_run cronNext wall ⟨"at", none, n, ex, tzv⟩ now = none
    ∧ compute_next_run cronNext wall ⟨"every", a, none, ex, tzv⟩ now = none
    ∧ compute_next_run cronNext wall ⟨"cron", a, n, none, tzv⟩ now
        = none := by
  refine ⟨?_, ?_, ?_, ?_⟩ <;> intros <;> simp_all [compute_next_run]

/-- Witness for `compute_next_run_total` at a concrete bogus kind. -/
theorem compute_next_run_total_witness :
    (("weekly" : String) ≠ "at" → ("weekly" : String) ≠ "every" →
        ("weekly" : String) ≠ "cron" →
        compute_next_run cronStep 0 ⟨"weekly", some 1, some 2, some ("x"), none⟩ 0
          = none)
    ∧ compute_next_run cronStep 0 ⟨"at", none, some 2, some ("x"), none⟩ 0 = none
    ∧ compute_next_run cronStep 0 ⟨"every", some 1, none, some ("x"), none⟩ 0 = none
    ∧ compute_next_run cronStep 0 ⟨"cron", some 1, some 2, none, none⟩ 0
        = none :=
  compute_next_run_total cronStep 0 0 "weekly" (some 1) (some 2) (some ("x")) none

/-- C1 counterexample data: but for the wall clock, all arguments equal. -/
def cronExprSchedule : CronSchedule :=
  ⟨"cron", none, none, some ("* * * * * *"), none⟩

/-- C1 (as stated) is false: with the wall clock at two different instants
the `"cron"` arm of `compute_next_run` gives two different answers for the
same `(schedule, now)` pair, so it is not a function of `(schedule, now)`;
and with the wall clock behind `now` the answer is not strictly greater
than `now`. -/
theorem cron_wall_clock_counterexample :
    compute_next_run cronStep 0 cronExprSchedule 0 = some 1
    ∧ compute_next_run cronStep 100 cronExprSchedule 0 = some 101
    ∧ some (1 : Int) ≠ some (101 : Int)
    ∧ compute_next_run cronStep 0 cronExprSchedule 50 = some 1
    ∧ ¬ ((50 : Int) < 1) := by
  refine ⟨rfl, rfl, by decide, rfl, by decide⟩

/-- C1 (amended): for a schedule of kind `cron`, `compute_next_run`
returns `none` when the expression is absent; otherwise it hands the
expression to the cron library together with the current wall-clock
instant, ignoring both its `now` argument and the schedule's `tz` field
(UTC is hard-coded); it is deterministic given `(schedule, wall)`; and
provided the library returns the first occurrence strictly after the
instant it is given and the wall clock is not behind `now` (true at every
call site, which passes a fresh clock reading as `now`), the result is
strictly greater than `now`. -/
theorem cron_next_run (cronNext : String → Int → Option Int)
    (wall now now' : Int) (a n : Option Int) (e : String)
    (tzv tzv' : Option String) :
    compute_next_run cronNext wall ⟨"cron", a, n, some e, tzv⟩ now
        = cronNext e wall
    ∧ compute_next_run cronNext wall ⟨"cron", a, n, some e, tzv⟩ now
        = compute_next_run cronNext wall ⟨"cron", a, n, some e, tzv'⟩ now'
    ∧ compute_next_run cronNext wall ⟨"cron", a, n, none, tzv⟩ now = none
    ∧ ((∀ ex t r, cronNext ex t = some r → t < r) → now ≤ wall →
        ∀ r, compute_next_run cronNext wall ⟨"cron", a, n, some e, tzv⟩ now
            = some r → now < r) := by
  refine ⟨by simp [compute_next_run], by simp [compute_next_run],
    by simp [compute_next_run], ?_⟩
  intro hstrict hle r hr
  simp [compute_next_run] at hr
  exact lt_of_le_of_lt hle (hstrict e wall r hr)

/-- Witness for `cron_next_run` at a concrete schedule and clock. -/
theorem cron_next_run_witness :
    compute_next_run cronStep 5 ⟨"cron", none, none, some ("* * * * * *"), none⟩ 3
        = cronStep ("* * * * * *") 5
    ∧ compute_next_run cronStep 5 ⟨"cron", none, none, some ("* * * * * *"), none⟩ 3
        = compute_next_run cronStep 5
            ⟨"cron", none, none, some ("* * * * * *"), some ("UTC")⟩ 7
    ∧ compute_next_run cronStep 5 ⟨"cron", none, none, none, none⟩ 3 = none
    ∧ ((∀ ex t r, cronStep ex t = some r → t < r) → (3 : Int) ≤ 5 →
        ∀ r, compute_next_run cronStep 5
            ⟨"cron", none, none, some ("* * * * * *"), none⟩ 3
            = some r → (3 : Int) < r) :=
  cron_next_run cronStep 5 3 7 none none ("* * * * * *") none (some ("UTC"))

lemma mem_insertSorted (a j : CronJob) (l : List CronJob) :
    a ∈ insertSorted j l ↔ a = j ∨ a ∈ l := by
  induction l with
  | nil => simp [insertSorted]
  | cons k rest ih =>
      simp only [insertSorted]
      split
      · simp [List.mem_cons]
      · simp only [List.mem_cons, ih]
        tauto

lemma mem_sortJobs (a : CronJob) (l : List CronJob) :
    a ∈ sortJobs l ↔ a ∈ l := by
  induction l with
  | nil => simp [sortJobs]
  | cons j rest ih => simp [sortJobs, mem_insertSorted, ih]

lemma updateFirst_of_find?_none (p : CronJob → Bool) (f : CronJob → CronJob)
    (l : List CronJob) (h : l.find? p = none) : updateFirst p f l = l := by
  induction l with
  | nil => rfl
  | cons k rest ih =>
      unfold updateFirst
      cases hpk : p k with
      | true =>
          rw [List.find?_cons_of_pos _ hpk] at h
          exact absurd h (by simp)
      | false =>
          rw [List.find?_cons_of_neg _ (by simp [hpk])] at h
          simp [hpk, ih h]

lemma mem_updateFirst (p : CronJob → Bool) (f : CronJob → CronJob)
    (a : CronJob) (l : List CronJob) (ha : a ∈ updateFirst p f l) :
    a ∈ l ∨ ∃ j, l.find? p = some j ∧ a = f j := by
  induction l with
  | nil => simp [updateFirst] at ha
  | cons k rest ih =>
      unfold updateFirst at ha
      cases hpk : p k with
      | true =>
          rw [hpk] at ha
          simp only [if_true, List.mem_cons] at ha
          rcases ha with ha | ha
          · exact Or.inr ⟨k, List.find?_cons_of_pos _ hpk, ha⟩
          · exact Or.inl (List.mem_cons_of_mem _ ha)
      | false =>
          rw [if_neg (by simp [hpk])] at ha
          rcases List.mem_cons.mp ha with ha | ha
          · exact Or.inl (ha ▸ List.mem_cons_self _ _)
          · rcases ih ha with hmem | ⟨j, hj, hfj⟩
            · exact Or.inl (List.mem_cons_of_mem _ hmem)
            · exact Or.inr ⟨j, by
                rw [List.find?_cons_of_neg _ (by simp [hpk])]
                exact hj, hfj⟩

lemma find?_mem_updateFirst (p : CronJob → Bool) (f : CronJob → CronJob)
    (l : List CronJob) (j : CronJob) (h : l.find? p = some j) :
    f j ∈ updateFirst p f l := by
  induction l with
  | nil => simp at h
  | cons k rest ih =>
      unfold updateFirst
      cases hpk : p k with
      | true =>
          rw [List.find?_cons_of_pos _ hpk] at h
          cases h
          simp [hpk]
      | false =>
          rw [List.find?_cons_of_neg _ (by simp [hpk])] at h
          rw [if_neg (by simp [hpk])]
          exact List.mem_cons_of_mem _ (ih h)

lemma updateFirst_map_key {α : Type} (p : CronJob → Bool)
    (f : CronJob → CronJob) (g : CronJob → α)
    (hg : ∀ x, g (f x) = g x) (l : List CronJob) :
    (updateFirst p f l).map g = l.map g := by
  induction l with
  | nil => rfl
  | cons k rest ih =>
      unfold updateFirst
      cases hpk : p k with
      | true => simp [hg]
      | false => simp [ih]

lemma collectEntries_of_mem_none (entries : List (Option CronJob))
    (h : none ∈ entries) : collectEntries entries = none := by
  induction entries with
  | nil => simp at h
  | cons x rest ih =>
      cases x with
      | none => rfl
      | some j =>
          rcases List.mem_cons.mp h with hx | hx
          · exact absurd hx (by simp)
          · simp [collectEntries, ih hx]

lemma collectEntries_map_some (js : List CronJob) :
    collectEntries (js.map some) = some js := by
  induction js with
  | nil => rfl
  | cons j rest ih => simp [collectEntries, ih]

/-- A concrete payload for witnesses and counterexamples. -/
def samplePayload : CronPayload := ⟨"agent_turn", "", false, none, none⟩

/-- A concrete fixed-interval schedule (1000 ms). -/
def everySchedule1000 : CronSchedule := ⟨"every", none, some 1000, none, none⟩

/-- A concrete disabled recurring job. -/
def jobDisabledEvery : CronJob :=
  ⟨"a", "wake", false, everySchedule1000, samplePayload,
    ⟨none, none, none, none⟩, 0, 0, false⟩

/-- A concrete enabled recurring job. -/
def jobEnabledEvery : CronJob :=
  ⟨"b", "tick", true, everySchedule1000, samplePayload,
    ⟨some 1005, none, none, none⟩, 0, 0, false⟩

/-- A concrete executor that always succeeds. -/
def exec0 : CronJob → Except String Unit := fun _ => Except.ok ()

/-- C6: loading the store is fail-closed — a missing or unreadable file or
an unparsable document yields the empty registry, one malformed entry
among otherwise valid ones fails the whole document (no partial
recovery), and only a fully well-formed document yields its jobs. -/
theorem load_store_fail_closed (v : Int) (entries : List (Option CronJob))
    (js : List CronJob) :
    load_store StoreFile.missing = []
    ∧ load_store StoreFile.readFailure = []
    ∧ load_store StoreFile.notAStore = []
    ∧ (none ∈ entries → load_store (StoreFile.doc v entries) = [])
    ∧ load_store (StoreFile.doc v (js.map some)) = js := by
  refine ⟨rfl, rfl, rfl, ?_, ?_⟩
  · intro h
    simp [load_store, collectEntries_of_mem_none entries h]
  · simp [load_store, collectEntries_map_some]

/-- Witness for `load_store_fail_closed`: one malformed entry among three
valid ones yields an empty registry; an intact one-entry document loads. -/
theorem load_store_fail_closed_witness :
    load_store (StoreFile.doc 1
        [some jobEnabledEvery, none, some jobDisabledEvery,
          some jobEnabledEvery]) = []
    ∧ load_store (StoreFile.doc 1 ([jobEnabledEvery].map some))
        = [jobEnabledEvery] :=
  ⟨(load_store_fail_closed 1
      [some jobEnabledEvery, none, some jobDisabledEvery,
        some jobEnabledEvery] []).2.2.2.1 (by simp),
    (load_store_fail_closed 1 [] [jobEnabledEvery]).2.2.2.2⟩

lemma applyOutcome_id (cronNext : String → Int → Option Int) (s e : Int)
    (r : Except String Unit) (job : CronJob) :
    (applyOutcome cronNext s e r job).id = job.id := by
  unfold applyOutcome
  cases r <;> dsimp only <;> split <;> rfl

lemma applyOutcome_schedule (cronNext : String → Int → Option Int)
    (s e : Int) (r : Except String Unit) (job : CronJob) :
    (applyOutcome cronNext s e r job).schedule = job.schedule := by
  unfold applyOutcome
  cases r <;> dsimp only <;> split <;> rfl

lemma applyOutcome_last_run (cronNext : String → Int → Option Int)
    (s e : Int) (r : Except String Unit) (job : CronJob) :
    (applyOutcome cronNext s e r job).state.last_run_at_ms = some s := by
  unfold applyOutcome
  cases r <;> dsimp only <;> split <;> rfl

lemma applyOutcome_updated (cronNext : String → Int → Option Int)
    (s e : Int) (r : Except String Unit) (job : CronJob) :
    (applyOutcome cronNext s e r job).updated_at_ms = e := by
  unfold applyOutcome
  cases r <;> dsimp only <;> split <;> rfl

lemma applyOutcome_enabled (cronNext : String → Int → Option Int)
    (s e : Int) (r : Except String Unit) (job : CronJob) :
    (applyOutcome cronNext s e r job).enabled
      = (if job.schedule.kind = "at" then false else job.enabled) := by
  unfold applyOutcome
  cases r <;> dsimp only <;> split <;> simp_all

lemma applyOutcome_next (cronNext : String → Int → Option Int)
    (s e : Int) (r : Except String Unit) (job : CronJob) :
    (applyOutcome cronNext s e r job).state.next_run_at_ms
      = (if job.schedule.kind = "at" then none
          else compute_next_run cronNext e job.schedule e) := by
  unfold applyOutcome
  cases r <;> dsimp only <;> split <;> simp_all

lemma applyOutcome_ok_status (cronNext : String → Int → Option Int)
    (s e : Int) (job : CronJob) :
    (applyOutcome cronNext s e (Except.ok ()) job).state.last_status
        = some ("ok")
    ∧ (applyOutcome cronNext s e (Except.ok ()) job).state.last_error
        = none := by
  unfold applyOutcome
  dsimp only
  split <;> exact ⟨rfl, rfl⟩

lemma applyOutcome_error_status (cronNext : String → Int → Option Int)
    (s e : Int) (msg : String) (job : CronJob) :
    (applyOutcome cronNext s e (Except.error msg) job).state.last_status
        = some ("error")
    ∧ (applyOutcome cronNext s e (Except.error msg) job).state.last_error
        = some msg := by
  unfold applyOutcome
  dsimp only
  split <;> exact ⟨rfl, rfl⟩

/-- C7: when a dispatch completes for a job that is still present, the
post-completion update records `last_run_at_ms = start_ms` (the clock read
taken before the executor call), `updated_at_ms = end_ms` (the current
clock), and `last_status`/`last_error` from the outcome (`ok`/`none` on
success, `error`/`some msg` on failure); an executor failure never changes
scheduling — the rescheduled `next_run_at_ms`, the `enabled` flag and the
surviving job ids are identical to the success case (no retry, no
backoff, no removal). -/
theorem dispatch_outcome_recorded (cronNext : String → Int → Option Int)
    (s e : Int) (msg : String) (job : CronJob) (jid : String)
    (jobs : List CronJob) :
    (applyOutcome cronNext s e (Except.ok ()) job).state.last_run_at_ms
        = some s
    ∧ (applyOutcome cronNext s e (Except.error msg) job).state.last_run_at_ms
        = some s
    ∧ (applyOutcome cronNext s e (Except.ok ()) job).updated_at_ms = e
    ∧ (applyOutcome cronNext s e (Except.error msg) job).updated_at_ms = e
    ∧ (applyOutcome cronNext s e (Except.ok ()) job).state.last_status
        = some ("ok")
    ∧ (applyOutcome cronNext s e (Except.ok ()) job).state.last_error = none
    ∧ (applyOutcome cronNext s e (Except.error msg) job).state.last_status
        = some ("error")
    ∧ (applyOutcome cronNext s e (Except.error msg) job).state.last_error
        = some msg
    ∧ (applyOutcome cronNext s e (Except.error msg) job).state.next_run_at_ms
        = (applyOutcome cronNext s e (Except.ok ()) job).state.next_run_at_ms
    ∧ (applyOutcome cronNext s e (Except.error msg) job).enabled
        = (applyOutcome cronNext s e (Except.ok ()) job).enabled
    ∧ (execute_job_update cronNext s e (Except.error msg) jid jobs).map
          (fun j => j.id)
        = (execute_job_update cronNext s e (Except.ok ()) jid jobs).map
          (fun j => j.id) := by
  refine ⟨applyOutcome_last_run cronNext s e (Except.ok ()) job,
    applyOutcome_last_run cronNext s e (Except.error msg) job,
    applyOutcome_updated cronNext s e (Except.ok ()) job,
    applyOutcome_updated cronNext s e (Except.error msg) job,
    (applyOutcome_ok_status cronNext s e job).1,
    (applyOutcome_ok_status cronNext s e job).2,
    (applyOutcome_error_status cronNext s e msg job).1,
    (applyOutcome_error_status cronNext s e msg job).2,
    ?_, ?_, ?_⟩
  · rw [applyOutcome_next, applyOutcome_next]
  · rw [applyOutcome_enabled, applyOutcome_enabled]
  · unfold execute_job_update
    cases hf : jobs.find? (fun j => j.id == jid) with
    | none => rfl
    | some j0 =>
        dsimp only
        by_cases hc : j0.schedule.kind = "at" ∧ j0.delete_after_run = true
        · simp [hc]
        · rw [if_neg hc, if_neg hc,
            updateFirst_map_key _ _ _
              (fun x => applyOutcome_id cronNext s e (Except.error msg) x),
            updateFirst_map_key _ _ _
              (fun x => applyOutcome_id cronNext s e (Except.ok ()) x)]

/-- C8: dispatching an id that is absent from the registry aborts
silently: the re-fetch yields `none`, the executor is not invoked (the
flag is `false`), the registry is unchanged, and the post-completion state
update is a no-op for the vanished id whatever the outcome. -/
theorem vanished_job_dispatch (cronNext : String → Int → Option Int)
    (s e : Int) (executor : CronJob → Except String Unit)
    (r : Except String Unit) (jid : String) (jobs : List CronJob)
    (h : ∀ j ∈ jobs, ¬ j.id = jid) :
    execute_job_fetch jid jobs = none
    ∧ execute_job cronNext s e executor jid jobs = (jobs, false)
    ∧ execute_job_update cronNext s e r jid jobs = jobs := by
  have hfind : jobs.find? (fun j => j.id == jid) = none := by
    rw [List.find?_eq_none]
    intro j hj
    simp [h j hj]
  refine ⟨hfind, ?_, ?_⟩
  · unfold execute_job execute_job_fetch
    rw [hfind]
  · unfold execute_job_update
    rw [hfind]

/-- Witness for `vanished_job_dispatch` at a concrete absent id. -/
theorem vanished_job_dispatch_witness :
    execute_job_fetch ("zz") [jobEnabledEvery] = none
    ∧ execute_job cronStep 1 2 exec0 ("zz") [jobEnabledEvery]
        = ([jobEnabledEvery], false)
    ∧ execute_job_update cronStep 1 2 (Except.ok ()) ("zz") [jobEnabledEvery]
        = [jobEnabledEvery] :=
  vanished_job_dispatch cronStep 1 2 exec0 (Except.ok ()) ("zz")
    [jobEnabledEvery]
    (by
      intro j hj
      rcases List.mem_singleton.mp hj with rfl
      decide)

/-- C9: operations on an unknown id fail softly — `remove` returns
`false`, does not persist and leaves the registry unchanged, `enable`
returns `none` leaving the registry unchanged, `run` returns `false`
leaving the registry unchanged; in general `remove` returns `true` exactly
when a job with the id was present, and persists exactly when it removed
something. -/
theorem unknown_id_operations (cronNext : String → Int → Option Int)
    (now s e : Int) (executor : CronJob → Except String Unit)
    (en force : Bool) (jid : String) (jobs : List CronJob) :
    ((∀ j ∈ jobs, ¬ j.id = jid) →
      remove_job jid jobs = ⟨false, jobs, false⟩
      ∧ enable_job cronNext now jid en jobs = (none, jobs)
      ∧ run_job cronNext s e executor jid force jobs = (false, jobs))
    ∧ ((remove_job jid jobs).removed = true ↔ ∃ j ∈ jobs, j.id = jid)
    ∧ (remove_job jid jobs).persisted = (remove_job jid jobs).removed := by
  refine ⟨?_, ?_, rfl⟩
  · intro h
    have hfilter : jobs.filter (fun j => j.id != jid) = jobs := by
      rw [List.filter_eq_self]
      intro j hj
      simp [h j hj]
    have hfind : jobs.find? (fun j => j.id == jid) = none := by
      rw [List.find?_eq_none]
      intro j hj
      simp [h j hj]
    have hany : jobs.any (fun j => j.id == jid && (force || j.enabled))
        = false := by
      rw [List.any_eq_false]
      intro j hj
      simp [h j hj]
    refine ⟨?_, ?_, ?_⟩
    · unfold remove_job
      simp [hfilter]
    · unfold enable_job
      rw [hfind]
    · unfold run_job
      simp [hany]
  · unfold remove_job
    dsimp only
    rw [decide_eq_true_eq, List.length_filter_lt_length_iff_exists]
    simp

/-- Witness for `unknown_id_operations` at a concrete unknown id. -/
theorem unknown_id_operations_witness :
    remove_job ("zz") [jobEnabledEvery] = ⟨false, [jobEnabledEvery], false⟩
    ∧ enable_job cronStep 5 ("zz") true [jobEnabledEvery]
        = (none, [jobEnabledEvery])
    ∧ run_job cronStep 1 2 exec0 ("zz") false [jobEnabledEvery]
        = (false, [jobEnabledEvery]) :=
  (unknown_id_operations cronStep 5 1 2 exec0 true false ("zz")
      [jobEnabledEvery]).1
    (by
      intro j hj
      rcases List.mem_singleton.mp hj with rfl
      decide)

/-- A concrete enabled one-shot job flagged delete-after-run. -/
def jobAtDelete : CronJob :=
  ⟨"c", "once", true, ⟨"at", some 50, none, none, none⟩, samplePayload,
    ⟨some 50, none, none, none⟩, 0, 0, true⟩

/-- C3: after a dispatch completes for a job still present — a one-shot
(`at`) with `delete_after_run` is removed entirely (absent even from
`list_jobs` with `include_disabled`); a one-shot without it stays, now
disabled with `next_run_at_ms = none`; any other kind is rescheduled by
the next-run calculator against the post-execution time `e`, not the
pre-execution time `s`. -/
theorem one_shot_dispatch (cronNext : String → Int → Option Int)
    (s e : Int) (r : Except String Unit) (jid : String)
    (jobs : List CronJob) (job : CronJob)
    (hf : jobs.find? (fun j => j.id == jid) = some job) :
    (job.schedule.kind = "at" → job.delete_after_run = true →
      execute_job_update cronNext s e r jid jobs
          = jobs.filter (fun j => j.id != jid)
      ∧ ∀ j' ∈ list_jobs true (execute_job_update cronNext s e r jid jobs),
          ¬ j'.id = jid)
    ∧ (job.schedule.kind = "at" → job.delete_after_run = false →
      applyOutcome cronNext s e r job
          ∈ execute_job_update cronNext s e r jid jobs
      ∧ (applyOutcome cronNext s e r job).id = job.id
      ∧ (applyOutcome cronNext s e r job).enabled = false
      ∧ (applyOutcome cronNext s e r job).state.next_run_at_ms = none)
    ∧ (¬ job.schedule.kind = "at" →
      applyOutcome cronNext s e r job
          ∈ execute_job_update cronNext s e r jid jobs
      ∧ (applyOutcome cronNext s e r job).id = job.id
      ∧ (applyOutcome cronNext s e r job).state.next_run_at_ms
          = compute_next_run cronNext e job.schedule e
      ∧ ∀ n, job.schedule.kind = "every" → job.schedule.every_ms = some n →
          0 < n → ¬ s = e →
          ¬ (applyOutcome cronNext s e r job).state.next_run_at_ms
              = some (s + n)) := by
  refine ⟨?_, ?_, ?_⟩
  · intro hk hd
    have hres : execute_job_update cronNext s e r jid jobs
        = jobs.filter (fun j => j.id != jid) := by
      unfold execute_job_update
      rw [hf]
      dsimp only
      rw [if_pos ⟨hk, hd⟩]
    refine ⟨hres, ?_⟩
    intro j' hj'
    rw [hres] at hj'
    unfold list_jobs at hj'
    rw [if_pos rfl] at hj'
    have hj2 := (mem_sortJobs _ _).mp hj'
    have := List.of_mem_filter hj2
    simpa using this
  · intro hk hd
    have hc : ¬ (job.schedule.kind = "at" ∧ job.delete_after_run = true) := by
      simp [hd]
    have hres : execute_job_update cronNext s e r jid jobs
        = updateFirst (fun j => j.id == jid)
            (applyOutcome cronNext s e r) jobs := by
      unfold execute_job_update
      rw [hf]
      dsimp only
      rw [if_neg hc]
    refine ⟨?_, applyOutcome_id cronNext s e r job, ?_, ?_⟩
    · rw [hres]
      exact find?_mem_updateFirst _ _ jobs job hf
    · rw [applyOutcome_enabled, if_pos hk]
    · rw [applyOutcome_next, if_pos hk]
  · intro hk
    have hc : ¬ (job.schedule.kind = "at" ∧ job.delete_after_run = true) := by
      simp [hk]
    have hres : execute_job_update cronNext s e r jid jobs
        = updateFirst (fun j => j.id == jid)
            (applyOutcome cronNext s e r) jobs := by
      unfold execute_job_update
      rw [hf]
      dsimp only
      rw [if_neg hc]
    have hnext : (applyOutcome cronNext s e r job).state.next_run_at_ms
        = compute_next_run cronNext e job.schedule e := by
      rw [applyOutcome_next, if_neg hk]
    refine ⟨?_, applyOutcome_id cronNext s e r job, hnext, ?_⟩
    · rw [hres]
      exact find?_mem_updateFirst _ _ jobs job hf
    · intro n hkind hev hn hne habs
      have hcomp : compute_next_run cronNext e job.schedule e
          = some (e + n) := by
        unfold compute_next_run
        rw [hkind]
        simp [hev, hn]
      rw [hnext, hcomp] at habs
      simp only [Option.some.injEq] at habs
      omega

/-- Witness for `one_shot_dispatch`: a delete-after-run one-shot is gone
from the registry and from the full listing after its dispatch. -/
theorem one_shot_dispatch_witness :
    execute_job_update cronStep 1 2 (Except.ok ()) ("c") [jobAtDelete]
        = [jobAtDelete].filter (fun j => j.id != "c")
    ∧ ∀ j' ∈ list_jobs true
        (execute_job_update cronStep 1 2 (Except.ok ()) ("c") [jobAtDelete]),
        ¬ j'.id = "c" :=
  (one_shot_dispatch cronStep 1 2 (Except.ok ()) ("c") [jobAtDelete]
      jobAtDelete (by decide)).1 rfl rfl

lemma regInv_reconcile (cronNext : String → Int → Option Int) (now : Int)
    (jobs : List CronJob) (h : RegInv cronNext jobs) :
    RegInv cronNext (reconcile cronNext now jobs) := by
  intro j' hj'
  unfold reconcile at hj'
  rcases List.mem_map.mp hj' with ⟨j, hj, rfl⟩
  by_cases hen : j.enabled = true
  · refine ⟨now, ?_⟩
    unfold jobInvAt
    simp [hen]
  · rcases h j hj with ⟨t, ht⟩
    refine ⟨t, ?_⟩
    simp only [hen, if_neg]
    simpa [hen] using ht

lemma regInv_add (cronNext : String → Int → Option Int) (now : Int)
    (fresh_id name : String) (sched : CronSchedule) (msg : String)
    (dl : Bool) (ch rcp : Option String) (dar : Bool)
    (jobs : List CronJob) (h : RegInv cronNext jobs) :
    RegInv cronNext
      (add_job cronNext now fresh_id name sched msg dl ch rcp dar jobs).2 := by
  intro j' hj'
  unfold add_job at hj'
  dsimp only at hj'
  rcases List.mem_append.mp hj' with hj | hj
  · exact h j' hj
  · rcases List.mem_singleton.mp hj with rfl
    refine ⟨now, ?_⟩
    unfold jobInvAt
    simp

lemma regInv_remove (cronNext : String → Int → Option Int) (jid : String)
    (jobs : List CronJob) (h : RegInv cronNext jobs) :
    RegInv cronNext (remove_job jid jobs).jobs := by
  intro j' hj'
  unfold remove_job at hj'
  exact h j' (List.mem_of_mem_filter hj')

lemma regInv_enable (cronNext : String → Int → Option Int) (now : Int)
    (jid : String) (en : Bool) (jobs : List CronJob)
    (h : RegInv cronNext jobs) :
    RegInv cronNext (enable_job cronNext now jid en jobs).2 := by
  unfold enable_job
  cases hf : jobs.find? (fun j => j.id == jid) with
  | none => exact h
  | some j0 =>
      dsimp only
      intro j' hj'
      rcases mem_updateFirst _ _ _ _ hj' with hj | ⟨j1, hj1, rfl⟩
      · exact h j' hj
      · refine ⟨now, ?_⟩
        unfold jobInvAt enableUpdate
        cases en <;> simp

lemma regInv_execute (cronNext : String → Int → Option Int) (s e : Int)
    (executor : CronJob → Except String Unit) (jid : String)
    (jobs : List CronJob) (h : RegInv cronNext jobs)
    (hen : ∀ j, execute_job_fetch jid jobs = some j → j.enabled = true) :
    RegInv cronNext (execute_job cronNext s e executor jid jobs).1 := by
  unfold execute_job
  cases hf : execute_job_fetch jid jobs with
  | none => exact h
  | some job =>
      dsimp only
      have hjen : job.enabled = true := hen job hf
      have hf' : jobs.find? (fun j => j.id == jid) = some job := hf
      unfold execute_job_update
      rw [hf']
      dsimp only
      by_cases hc : job.schedule.kind = "at" ∧ job.delete_after_run = true
      · rw [if_pos hc]
        intro j' hj'
        exact h j' (List.mem_of_mem_filter hj')
      · rw [if_neg hc]
        intro j' hj'
        rcases mem_updateFirst _ _ _ _ hj' with hj | ⟨j1, hj1, rfl⟩
        · exact h j' hj
        · have hj1j : j1 = job := by
            rw [hf'] at hj1
            exact (Option.some.inj hj1).symm
          subst hj1j
          refine ⟨e, ?_⟩
          unfold jobInvAt
          rw [applyOutcome_next, applyOutcome_enabled, applyOutcome_schedule]
          by_cases hk : j1.schedule.kind = "at"
          · rw [if_pos hk, if_pos hk]
            simp
          · rw [if_neg hk, if_neg hk, hjen]
            simp

lemma regInv_run (cronNext : String → Int → Option Int) (s e : Int)
    (executor : CronJob → Except String Unit) (jid : String) (force : Bool)
    (jobs : List CronJob) (h : RegInv cronNext jobs)
    (hen : ∀ j, execute_job_fetch jid jobs = some j → j.enabled = true) :
    RegInv cronNext (run_job cronNext s e executor jid force jobs).2 := by
  unfold run_job
  split
  · exact regInv_execute cronNext s e executor jid jobs h hen
  · exact h

/-- C2 counterexample: `run_job` with `force = true` on a disabled
recurring job dispatches it, and the post-completion update recomputes
`next_run_at_ms` without consulting `enabled` — leaving a disabled job
with `next_run_at_ms` set, so it is false that no disabled job ever has
`next_run_at_ms` set after an operation. -/
theorem disabled_forced_run_counterexample :
    (run_job cronStep 10 20 exec0 ("a") true [jobDisabledEvery]).1 = true
    ∧ ¬ (∀ j ∈ (run_job cronStep 10 20 exec0 ("a") true
          [jobDisabledEvery]).2,
        j.enabled = false → j.state.next_run_at_ms = none)
    ∧ (run_job cronStep 10 20 exec0 ("a") true [jobDisabledEvery]).2.map
        (fun j => (j.enabled, j.state.next_run_at_ms))
      = [(false, some 1020)] := by
  refine ⟨rfl, by decide, by decide⟩

/-- C2 (amended): start-time reconciliation, add, remove, and
enable/disable all preserve — unconditionally — the invariant that a
job's `next_run_at_ms` is absent iff the job is disabled or the next-run
calculator returned `none` for its schedule at the instant it was last
rescheduled (covering elapsed one-shots, unparsable cron expressions, and
degenerate schedules: absent or non-positive interval, absent required
field, unrecognised kind); dispatch completion and manual run preserve it
whenever the dispatched job is enabled when fetched, which is every
dispatch except a forced manual run of a disabled job — there the
post-completion update recomputes `next_run_at_ms` without checking
`enabled` (see the counterexample). -/
theorem registry_invariant_preserved (cronNext : String → Int → Option Int)
    (now s e : Int) (fresh_id name jid : String) (sched : CronSchedule)
    (msg : String) (dl : Bool) (ch rcp : Option String)
    (dar en force : Bool) (executor : CronJob → Except String Unit)
    (jobs : List CronJob) (hinv : RegInv cronNext jobs) :
    RegInv cronNext (reconcile cronNext now jobs)
    ∧ RegInv cronNext
        (add_job cronNext now fresh_id name sched msg dl ch rcp dar jobs).2
    ∧ RegInv cronNext (remove_job jid jobs).jobs
    ∧ RegInv cronNext (enable_job cronNext now jid en jobs).2
    ∧ ((∀ j, execute_job_fetch jid jobs = some j → j.enabled = true) →
        RegInv cronNext (execute_job cronNext s e executor jid jobs).1
        ∧ RegInv cronNext (run_job cronNext s e executor jid force jobs).2) :=
  ⟨regInv_reconcile cronNext now jobs hinv,
    regInv_add cronNext now fresh_id name sched msg dl ch rcp dar jobs hinv,
    regInv_remove cronNext jid jobs hinv,
    regInv_enable cronNext now jid en jobs hinv,
    fun hen =>
      ⟨regInv_execute cronNext s e executor jid jobs hinv hen,
        regInv_run cronNext s e executor jid force jobs hinv hen⟩⟩

/-- Witness for `registry_invariant_preserved` on a concrete one-job
registry satisfying the invariant; the third and fourth conjuncts remove
and re-enable without any enabledness side condition, and the dispatch
conjuncts discharge the enabled-when-fetched hypothesis. -/
theorem registry_invariant_preserved_witness :
    RegInv cronStep (reconcile cronStep 5 [jobEnabledEvery])
    ∧ RegInv cronStep
        (add_job cronStep 5 ("n1") ("daily") everySchedule1000 ("hi") false
          none none false [jobEnabledEvery]).2
    ∧ RegInv cronStep (remove_job ("b") [jobEnabledEvery]).jobs
    ∧ RegInv cronStep (enable_job cronStep 5 ("b") true [jobEnabledEvery]).2
    ∧ RegInv cronStep (execute_job cronStep 1 2 exec0 ("b")
        [jobEnabledEvery]).1
    ∧ RegInv cronStep (run_job cronStep 1 2 exec0 ("b") false
        [jobEnabledEvery]).2 := by
  have hinv : RegInv cronStep [jobEnabledEvery] := by
    intro j hj
    rcases List.mem_singleton.mp hj with rfl
    refine ⟨5, ?_⟩
    unfold jobInvAt
    decide
  have hen : ∀ j, execute_job_fetch ("b") [jobEnabledEvery] = some j →
      j.enabled = true := by
    intro j hj
    have h0 : execute_job_fetch ("b") [jobEnabledEvery]
        = some jobEnabledEvery := by decide
    rw [h0] at hj
    exact (Option.some.inj hj) ▸ rfl
  have h := registry_invariant_preserved cronStep 5 1 2 ("n1") ("daily")
    ("b") everySchedule1000 ("hi") false none none false true false exec0
    [jobEnabledEvery] hinv
  exact ⟨h.1, h.2.1, h.2.2.1, h.2.2.2.1, (h.2.2.2.2 hen).1,
    (h.2.2.2.2 hen).2⟩
